import Mathlib

/-!
Shallow embedding of the in-memory state engine of the MyLLM service
(`main.py`): the `ConversationMemory` session store and the `ResponseCache`
LRU/TTL cache.  Timestamps are modelled as integers (`time.time()` instants),
prices as rationals, and the Python `dict` of sessions as a function
`String → Option Conversation` (no operation of `ConversationMemory` depends
on dict insertion order).  The `OrderedDict` backing the cache is modelled as
an association list whose front is the least-recently-used end and whose back
is the most-recently-used end, matching `move_to_end` / `popitem(last=False)`.
-/

namespace MyLLM

/-- An item of `current_order`.  In the source each item is an arbitrary dict
read with `item.get('price', 0)`, so every field is optional; a missing price
counts as zero in totals. -/
structure OrderItem where
  name : Option String := none
  size : Option String := none
  price : Option ℚ := none
  quantity : Option ℤ := none
  specialInstructions : Option String := none
deriving DecidableEq

/-- The price the code uses for an item: `item.get('price', 0)`. -/
def priceOf (it : OrderItem) : ℚ := it.price.getD 0

/-- The total the code computes: `sum(item.get('price', 0) for item in current_order)`. -/
def sumPrices (l : List OrderItem) : ℚ := l.foldl (fun acc it => acc + priceOf it) 0

/-- The `order_context` sub-record of a session (`main.py` lines 40-49). -/
structure OrderContext where
  customerName : Option String := none
  phoneNumber : Option String := none
  deliveryAddress : Option String := none
  currentOrder : List OrderItem := []
  orderTotal : ℚ := 0
  paymentMethod : Option String := none
  deliveryPreference : Option String := none
  specialInstructions : Option String := none
deriving DecidableEq

/-- A conversation message: `{'role': ..., 'content': ..., 'timestamp': ...}`. -/
structure Message where
  role : String
  content : String
  timestamp : ℤ
deriving DecidableEq

/-- One session's state (`self.conversations[session_id]`). -/
structure Conversation where
  messages : List Message
  createdAt : ℤ
  lastActivity : ℤ
  metadata : List (String × String)
  orderContext : OrderContext
deriving DecidableEq

/-- The `ConversationMemory` object.  The Python dict of sessions is a
function from session id to optional conversation. -/
structure Memory where
  conversations : String → Option Conversation
  maxConversations : ℕ
  maxMessagesPerConversation : ℕ
  lastCleanup : ℤ
  cleanupInterval : ℤ

/-- `ConversationMemory.__init__`: empty store, `last_cleanup = now`,
`cleanup_interval = 3600`. -/
def initMemory (maxConvs maxMsgs : ℕ) (now : ℤ) : Memory :=
  { conversations := fun _ => none
    maxConversations := maxConvs
    maxMessagesPerConversation := maxMsgs
    lastCleanup := now
    cleanupInterval := 3600 }

/-- Dict assignment `self.conversations[sid] = c`. -/
def setConv (f : String → Option Conversation) (sid : String) (c : Conversation) :
    String → Option Conversation :=
  fun s => if s = sid then some c else f s

/-- The fresh session record created on first `add_message`
(`main.py` lines 34-50): empty history, default order context. -/
def freshConversation (now : ℤ) (md : List (String × String)) : Conversation :=
  { messages := [], createdAt := now, lastActivity := now, metadata := md,
    orderContext := {} }

/-- `ConversationMemory._cleanup_old_conversations`: early return unless the
cleanup interval has elapsed since `last_cleanup`; otherwise record the sweep
time and delete every session whose `last_activity` is older than the
24-hour cutoff. -/
def cleanupOldConversations (m : Memory) (now : ℤ) : Memory :=
  if now - m.lastCleanup < m.cleanupInterval then m
  else
    { m with
      lastCleanup := now
      conversations := fun sid =>
        match m.conversations sid with
        | some conv => if conv.lastActivity < now - 24 * 3600 then none else some conv
        | none => none }

/-- Python slice `l[-n:]`: the last `n` elements, except that `l[-0:]` is the
whole list. -/
def pySliceLast (l : List α) (n : ℕ) : List α :=
  if n = 0 then l else l.drop (l.length - n)

/-- `ConversationMemory.add_message`: create the session if absent, stamp
`last_activity`, append the message, trim the history to the last
`max_messages_per_conversation` entries when it overflows, then run the
periodic cleanup. -/
def addMessage (m : Memory) (sid role content : String) (md : List (String × String))
    (now : ℤ) : Memory :=
  let conv0 := (m.conversations sid).getD (freshConversation now md)
  let msgs := conv0.messages ++ [{ role := role, content := content, timestamp := now }]
  let msgs := if m.maxMessagesPerConversation < msgs.length then
      pySliceLast msgs m.maxMessagesPerConversation
    else msgs
  let conv := { conv0 with lastActivity := now, messages := msgs }
  cleanupOldConversations { m with conversations := setConv m.conversations sid conv } now

/-- `ConversationMemory.get_conversation`: touch `last_activity` and return the
history if the session exists, otherwise return the empty list untouched. -/
def getConversation (m : Memory) (sid : String) (now : ℤ) : List Message × Memory :=
  match m.conversations sid with
  | some conv =>
      (conv.messages,
        { m with conversations := setConv m.conversations sid { conv with lastActivity := now } })
  | none => ([], m)

/-- `ConversationMemory.get_order_context`: a pure read; `none` models the
empty dict returned for a missing session. -/
def getOrderContext (m : Memory) (sid : String) : Option OrderContext × Memory :=
  match m.conversations sid with
  | some conv => (some conv.orderContext, m)
  | none => (none, m)

/-- A partial update passed to `update_order_context`: a field that is `none`
is absent from the `updates` dict; a field that is `some v` overwrites the
stored value with `v`. -/
structure OrderContextUpdate where
  customerName : Option (Option String) := none
  phoneNumber : Option (Option String) := none
  deliveryAddress : Option (Option String) := none
  currentOrder : Option (List OrderItem) := none
  orderTotal : Option ℚ := none
  paymentMethod : Option (Option String) := none
  deliveryPreference : Option (Option String) := none
  specialInstructions : Option (Option String) := none
deriving DecidableEq

/-- `order_context.update(updates)`: shallow merge, every key present in the
update overwrites the stored field (including `order_total`). -/
def applyContextUpdate (ctx : OrderContext) (u : OrderContextUpdate) : OrderContext :=
  { customerName := u.customerName.getD ctx.customerName
    phoneNumber := u.phoneNumber.getD ctx.phoneNumber
    deliveryAddress := u.deliveryAddress.getD ctx.deliveryAddress
    currentOrder := u.currentOrder.getD ctx.currentOrder
    orderTotal := u.orderTotal.getD ctx.orderTotal
    paymentMethod := u.paymentMethod.getD ctx.paymentMethod
    deliveryPreference := u.deliveryPreference.getD ctx.deliveryPreference
    specialInstructions := u.specialInstructions.getD ctx.specialInstructions }

/-- `ConversationMemory.update_order_context`: guarded by
`if session_id in self.conversations`; does nothing when the session is
absent. -/
def updateOrderContext (m : Memory) (sid : String) (u : OrderContextUpdate) (now : ℤ) :
    Memory :=
  match m.conversations sid with
  | some conv =>
      { m with
        conversations := setConv m.conversations sid
          { conv with
            orderContext := applyContextUpdate conv.orderContext u
            lastActivity := now } }
  | none => m

/-- `ConversationMemory.add_to_order`: guarded by
`if session_id in self.conversations`; appends the item and recomputes the
total; does nothing when the session is absent. -/
def addToOrder (m : Memory) (sid : String) (item : OrderItem) (now : ℤ) : Memory :=
  match m.conversations sid with
  | some conv =>
      let newOrder := conv.orderContext.currentOrder ++ [item]
      { m with
        conversations := setConv m.conversations sid
          { conv with
            orderContext :=
              { conv.orderContext with
                currentOrder := newOrder
                orderTotal := sumPrices newOrder }
            lastActivity := now } }
  | none => m

/-- `ConversationMemory.remove_from_order`: pops the item at `item_index` when
`0 <= item_index < len(current_order)` and recomputes the total; in every
other case (bad index or missing session) it falls through to `return None`
without touching any state. -/
def removeFromOrder (m : Memory) (sid : String) (i : ℤ) (now : ℤ) :
    Option OrderItem × Memory :=
  match m.conversations sid with
  | some conv =>
      let order := conv.orderContext.currentOrder
      if 0 ≤ i ∧ i < (order.length : ℤ) then
        match order.get? i.toNat with
        | some it =>
            let newOrder := order.take i.toNat ++ order.drop (i.toNat + 1)
            (some it,
              { m with
                conversations := setConv m.conversations sid
                  { conv with
                    orderContext :=
                      { conv.orderContext with
                        currentOrder := newOrder
                        orderTotal := sumPrices newOrder }
                    lastActivity := now } })
        | none => (none, m)
      else (none, m)
  | none => (none, m)

/-- `ConversationMemory.clear_order`: resets `current_order` to `[]` and
`order_total` to `0.0` when the session exists. -/
def clearOrder (m : Memory) (sid : String) (now : ℤ) : Memory :=
  match m.conversations sid with
  | some conv =>
      { m with
        conversations := setConv m.conversations sid
          { conv with
            orderContext :=
              { conv.orderContext with currentOrder := [], orderTotal := 0 }
            lastActivity := now } }
  | none => m

/-- The record returned by `get_session_summary`. -/
structure SessionSummary where
  sessionId : String
  createdAt : ℤ
  lastActivity : ℤ
  messageCount : ℕ
  orderContext : OrderContext
  metadata : List (String × String)
deriving DecidableEq

/-- `ConversationMemory.get_session_summary`: a pure read; `none` models the
empty dict returned for a missing session. -/
def getSessionSummary (m : Memory) (sid : String) : Option SessionSummary × Memory :=
  match m.conversations sid with
  | some conv =>
      (some
        { sessionId := sid
          createdAt := conv.createdAt
          lastActivity := conv.lastActivity
          messageCount := conv.messages.length
          orderContext := conv.orderContext
          metadata := conv.metadata }, m)
  | none => (none, m)

/-- `ConversationMemory.clear_conversation`: delete the session if present. -/
def clearConversation (m : Memory) (sid : String) : Memory :=
  match m.conversations sid with
  | some _ => { m with conversations := fun s => if s = sid then none else m.conversations s }
  | none => m

/-! ### ResponseCache -/

/-- A cache value: `{'response': ..., 'timestamp': ...}`. -/
structure CacheEntry where
  response : String
  timestamp : ℤ
deriving DecidableEq

/-- The `ResponseCache` object.  `entries` models the `OrderedDict`: front is
the least-recently-used end (`popitem(last=False)` removes it), back is the
most-recently-used end (`move_to_end` and insertion put entries there). -/
structure Cache where
  entries : List (String × CacheEntry)
  maxSize : ℕ
  ttl : ℤ
deriving DecidableEq

/-- Dict membership/indexing `self.cache[key]` (keys are unique in an
`OrderedDict`, so the first hit is the entry). -/
def lookupEntry : List (String × CacheEntry) → String → Option CacheEntry
  | [], _ => none
  | (k, e) :: rest, key => if k = key then some e else lookupEntry rest key

/-- The string `f"{prompt}:{model}:{max_tokens}:{temperature}"` that
`ResponseCache._generate_key` feeds to `hashlib.md5`. -/
def keyData (prompt model : String) (maxTokens : ℕ) (temperature : ℚ) : String :=
  prompt ++ ":" ++ model ++ ":" ++ toString maxTokens ++ ":" ++ toString temperature

/-- `ResponseCache._generate_key`, parametrised by the digest function: the
code returns `md5(key_data.encode()).hexdigest()`, a fixed function of the
`key_data` string. -/
def generateKeyWith (digest : String → String) (prompt model : String) (maxTokens : ℕ)
    (temperature : ℚ) : String :=
  digest (keyData prompt model maxTokens temperature)

/-- `ResponseCache.get` at the key level: on a fresh hit, return the stored
response and `move_to_end`; on an expired hit, delete the entry and miss; on
absence, miss. -/
def cacheGet (c : Cache) (key : String) (now : ℤ) : Option String × Cache :=
  match lookupEntry c.entries key with
  | some e =>
      if now - e.timestamp < c.ttl then
        (some e.response,
          { c with entries := c.entries.filter (fun p => p.1 ≠ key) ++ [(key, e)] })
      else
        (none, { c with entries := c.entries.filter (fun p => p.1 ≠ key) })
  | none => (none, c)

/-- `ResponseCache.set` at the key level: drop any old entry for the key,
append the new entry at the most-recently-used end, then evict the
least-recently-used entry if the size now exceeds `max_size`. -/
def cacheSet (c : Cache) (key response : String) (now : ℤ) : Cache :=
  let entries := c.entries.filter (fun p => p.1 ≠ key)
  let entries := entries ++ [(key, { response := response, timestamp := now })]
  let entries := if c.maxSize < entries.length then entries.drop 1 else entries
  { c with entries := entries }

/-- `ResponseCache.__init__`. -/
def initCache (maxSize : ℕ) (ttl : ℤ) : Cache :=
  { entries := [], maxSize := maxSize, ttl := ttl }

/-! ### Operation sequences used by the claims -/

/-- One call in a sequence of order-mutating operations. -/
inductive OrderOp where
  | add (sid : String) (item : OrderItem) (now : ℤ)
  | remove (sid : String) (i : ℤ) (now : ℤ)
  | clear (sid : String) (now : ℤ)

/-- Apply one order operation to the store (the value returned by a removal
is discarded; only the state matters here). -/
def applyOrderOp (m : Memory) : OrderOp → Memory
  | .add sid item now => addToOrder m sid item now
  | .remove sid i now => (removeFromOrder m sid i now).2
  | .clear sid now => clearOrder m sid now

/-- Apply a sequence of order operations in order. -/
def applyOrderOps (m : Memory) (ops : List OrderOp) : Memory :=
  ops.foldl applyOrderOp m

/-- The order-total invariant of the spec: every stored session's
`order_total` equals the sum of `price` over its `current_order`. -/
def OrderTotalInvariant (m : Memory) : Prop :=
  ∀ sid conv, m.conversations sid = some conv →
    conv.orderContext.orderTotal = sumPrices conv.orderContext.currentOrder

/-- One `add_message` call in a sequence of appends to a fixed session. -/
structure AppendCall where
  role : String
  content : String
  now : ℤ
deriving DecidableEq

/-- The message a given append stores. -/
def msgOfAppend (a : AppendCall) : Message :=
  { role := a.role, content := a.content, timestamp := a.now }

/-- Apply a sequence of `add_message` calls to a fixed session. -/
def applyAppends (m : Memory) (sid : String) (l : List AppendCall) : Memory :=
  l.foldl (fun m a => addMessage m sid a.role a.content [] a.now) m

/-- The stored history of a session, empty if the session is absent. -/
def messagesAt (m : Memory) (sid : String) : List Message :=
  match m.conversations sid with
  | some conv => conv.messages
  | none => []

/-- Apply a sequence of cache `get` calls (key, time), keeping only the
state. -/
def applyGets (c : Cache) (ops : List (String × ℤ)) : Cache :=
  ops.foldl (fun c p => (cacheGet c p.1 p.2).2) c

/-! ### Helper lemmas about the cache association list -/

theorem lookupEntry_filter_self (l : List (String × CacheEntry)) (k : String) :
    lookupEntry (l.filter fun p => p.1 ≠ k) k = none := by
  induction l with
  | nil => rfl
  | cons a rest ih =>
      obtain ⟨k', e⟩ := a
      simp only [ne_eq, decide_not] at ih ⊢
      by_cases h : k' = k
      · simpa [List.filter_cons, h] using ih
      · simp [List.filter_cons, h, lookupEntry, ih]

theorem lookupEntry_filter_ne {k' k : String} (h : k' ≠ k)
    (l : List (String × CacheEntry)) :
    lookupEntry (l.filter fun p => p.1 ≠ k) k' = lookupEntry l k' := by
  induction l with
  | nil => rfl
  | cons a rest ih =>
      obtain ⟨k₀, e⟩ := a
      simp only [ne_eq, decide_not] at ih ⊢
      by_cases h0 : k₀ = k
      · subst h0
        simp [List.filter_cons, lookupEntry, Ne.symm h, ih]
      · simp [List.filter_cons, h0, lookupEntry, ih]

theorem lookupEntry_append_some {l₁ l₂ : List (String × CacheEntry)} {key : String}
    {e : CacheEntry} (h : lookupEntry l₁ key = some e) :
    lookupEntry (l₁ ++ l₂) key = some e := by
  induction l₁ with
  | nil => cases h
  | cons a rest ih =>
      obtain ⟨k₀, e₀⟩ := a
      by_cases h0 : k₀ = key
      · simpa [lookupEntry, h0] using h
      · simp only [List.cons_append, lookupEntry, if_neg h0] at h ⊢
        exact ih h

theorem lookupEntry_append_none {l₁ l₂ : List (String × CacheEntry)} {key : String}
    (h : lookupEntry l₁ key = none) :
    lookupEntry (l₁ ++ l₂) key = lookupEntry l₂ key := by
  induction l₁ with
  | nil => rfl
  | cons a rest ih =>
      obtain ⟨k₀, e₀⟩ := a
      by_cases h0 : k₀ = key
      · simp [lookupEntry, h0] at h
      · simp only [List.cons_append, lookupEntry, if_neg h0] at h ⊢
        exact ih h

theorem lookupEntry_eq_none_of_forall {l : List (String × CacheEntry)} {key : String}
    (h : ∀ p ∈ l, p.1 ≠ key) : lookupEntry l key = none := by
  induction l with
  | nil => rfl
  | cons a rest ih =>
      obtain ⟨k₀, e₀⟩ := a
      have h0 : k₀ ≠ key := h (k₀, e₀) (List.mem_cons_self _ _)
      simp only [lookupEntry, if_neg h0]
      exact ih fun p hp => h p (List.mem_cons_of_mem _ hp)

theorem lookupEntry_filter_append (l : List (String × CacheEntry)) (k k' : String)
    (e₀ : CacheEntry) :
    lookupEntry ((l.filter fun p => p.1 ≠ k) ++ [(k, e₀)]) k' =
      if k' = k then some e₀ else lookupEntry l k' := by
  by_cases hk : k' = k
  · subst hk
    rw [lookupEntry_append_none (lookupEntry_filter_self l k')]
    simp [lookupEntry]
  · rw [if_neg hk]
    cases hfl : lookupEntry (l.filter fun p => p.1 ≠ k) k' with
    | some u =>
        rw [lookupEntry_append_some hfl, ← hfl, lookupEntry_filter_ne hk]
    | none =>
        rw [lookupEntry_append_none hfl, ← lookupEntry_filter_ne hk l, hfl]
        simp [lookupEntry, Ne.symm hk]

theorem mem_filter_key_ne {l : List (String × CacheEntry)} {k : String}
    {p : String × CacheEntry} (hp : p ∈ l.filter fun q => q.1 ≠ k) : p.1 ≠ k := by
  have := (List.mem_filter.mp hp).2
  simpa using this

theorem cacheSet_lookup_self (c : Cache) (k v : String) (now : ℤ)
    (h1 : 1 ≤ c.maxSize) :
    lookupEntry (cacheSet c k v now).entries k =
      some { response := v, timestamp := now } := by
  unfold cacheSet
  dsimp only
  by_cases hev : c.maxSize <
      ((c.entries.filter fun p => p.1 ≠ k) ++
        [(k, ({ response := v, timestamp := now } : CacheEntry))]).length
  · rw [if_pos hev]
    have h1f : 1 ≤ (c.entries.filter fun p => p.1 ≠ k).length := by
      have hlen := List.length_filter_le (fun p => decide (p.1 ≠ k)) c.entries
      simp only [List.length_append, List.length_cons, List.length_nil] at hev
      omega
    rw [List.drop_append_of_le_length h1f]
    have hforall : ∀ p ∈ (c.entries.filter fun q => q.1 ≠ k).drop 1, p.1 ≠ k :=
      fun p hp => mem_filter_key_ne (List.mem_of_mem_drop hp)
    rw [lookupEntry_append_none (lookupEntry_eq_none_of_forall hforall)]
    simp [lookupEntry]
  · rw [if_neg hev, lookupEntry_filter_append]
    simp

theorem cacheSet_getLast (c : Cache) (k v : String) (now : ℤ)
    (h1 : 1 ≤ c.maxSize) :
    (cacheSet c k v now).entries.getLast? =
      some (k, { response := v, timestamp := now }) := by
  unfold cacheSet
  dsimp only
  by_cases hev : c.maxSize <
      ((c.entries.filter fun p => p.1 ≠ k) ++
        [(k, ({ response := v, timestamp := now } : CacheEntry))]).length
  · rw [if_pos hev]
    have h1f : 1 ≤ (c.entries.filter fun p => p.1 ≠ k).length := by
      have hlen := List.length_filter_le (fun p => decide (p.1 ≠ k)) c.entries
      simp only [List.length_append, List.length_cons, List.length_nil] at hev
      omega
    rw [List.drop_append_of_le_length h1f, List.getLast?_concat]
  · rw [if_neg hev, List.getLast?_concat]

theorem cacheSet_length_le (c : Cache) (k v : String) (now : ℤ)
    (h2 : c.entries.length ≤ c.maxSize) :
    (cacheSet c k v now).entries.length ≤ c.maxSize := by
  unfold cacheSet
  dsimp only
  have hlen := List.length_filter_le (fun p => decide (p.1 ≠ k)) c.entries
  by_cases hev : c.maxSize <
      ((c.entries.filter fun p => p.1 ≠ k) ++
        [(k, ({ response := v, timestamp := now } : CacheEntry))]).length
  · rw [if_pos hev]
    simp only [List.length_drop, List.length_append, List.length_cons,
      List.length_nil] at hev ⊢
    omega
  · rw [if_neg hev]
    simp only [List.length_append, List.length_cons, List.length_nil] at hev ⊢
    omega

theorem cacheSet_lookup_ne (c : Cache) (k v : String) (now : ℤ) {k' : String}
    (hk : k' ≠ k) (hne : ¬ c.maxSize < c.entries.length + 1) :
    lookupEntry (cacheSet c k v now).entries k' = lookupEntry c.entries k' := by
  unfold cacheSet
  dsimp only
  have hlen := List.length_filter_le (fun p => decide (p.1 ≠ k)) c.entries
  rw [if_neg (by
    simp only [List.length_append, List.length_cons, List.length_nil]
    omega)]
  rw [lookupEntry_filter_append, if_neg hk]

theorem cacheGet_lookup_preserve {c : Cache} {k : String} {now : ℤ} {k' : String}
    {e : CacheEntry} (h : lookupEntry (cacheGet c k now).2.entries k' = some e) :
    lookupEntry c.entries k' = some e := by
  unfold cacheGet at h
  cases hl : lookupEntry c.entries k with
  | none => rw [hl] at h; exact h
  | some e₀ =>
      rw [hl] at h
      dsimp only at h
      by_cases ht : now - e₀.timestamp < c.ttl
      · rw [if_pos ht] at h
        dsimp only at h
        rw [lookupEntry_filter_append] at h
        by_cases hk : k' = k
        · rw [if_pos hk] at h
          rw [hk, hl, h]
        · rwa [if_neg hk] at h
      · rw [if_neg ht] at h
        dsimp only at h
        by_cases hk : k' = k
        · rw [hk, lookupEntry_filter_self] at h
          cases h
        · rwa [lookupEntry_filter_ne hk] at h

theorem applyGets_lookup_preserve {ops : List (String × ℤ)} :
    ∀ {c : Cache} {k' : String} {e : CacheEntry},
      lookupEntry (applyGets c ops).entries k' = some e →
      lookupEntry c.entries k' = some e := by
  induction ops with
  | nil => intro c k' e h; exact h
  | cons op rest ih =>
      intro c k' e h
      exact cacheGet_lookup_preserve (ih h)

theorem cacheGet_ttl (c : Cache) (k : String) (now : ℤ) :
    (cacheGet c k now).2.ttl = c.ttl := by
  unfold cacheGet
  cases lookupEntry c.entries k with
  | none => rfl
  | some e =>
      dsimp only
      split <;> rfl

theorem applyGets_ttl (ops : List (String × ℤ)) :
    ∀ c : Cache, (applyGets c ops).ttl = c.ttl := by
  induction ops with
  | nil => intro c; rfl
  | cons op rest ih =>
      intro c
      exact (ih _).trans (cacheGet_ttl c op.1 op.2)

/-- Demo cache state with a single fresh entry, used to instantiate the cache
claims. -/
def demoHitCache : Cache :=
  { entries := [("K", { response := "R", timestamp := 0 })], maxSize := 2, ttl := 3600 }

/-- A stand-in digest function used to instantiate the key-derivation claim
(the claims about `_generate_key` proved below hold for every digest,
in particular for MD5). -/
def demoDigest : String → String := fun s => s

/-! ### Claims C5, C6, C7, C9 (ResponseCache) -/

/-- Claim C5: `Set(key, value)` removes any existing entry for the key, so the
new insertion (carrying the current timestamp) lands at the
most-recently-used end, and then the least-recently-used entry is evicted
whenever the size exceeds `maxSize`; in particular with `maxSize = 2` the
sequence `Set(A)`, `Set(B)`, `Set(C)`, `Get(B)`, `Set(D)` leaves exactly `B`
and `D` in the cache. -/
theorem c5_lru_set :
    (∀ (c : Cache) (k v : String) (now : ℤ), 1 ≤ c.maxSize →
        c.entries.length ≤ c.maxSize →
        lookupEntry (cacheSet c k v now).entries k =
            some { response := v, timestamp := now } ∧
          (cacheSet c k v now).entries.getLast? =
            some (k, { response := v, timestamp := now }) ∧
          (cacheSet c k v now).entries.length ≤ c.maxSize) ∧
      (cacheSet (cacheGet (cacheSet (cacheSet (cacheSet (initCache 2 3600)
              "A" "a" 0) "B" "b" 1) "C" "c" 2) "B" 3).2 "D" "d" 4).entries.map
          Prod.fst = ["B", "D"] := by
  refine ⟨fun c k v now h1 h2 =>
    ⟨cacheSet_lookup_self c k v now h1, cacheSet_getLast c k v now h1,
      cacheSet_length_le c k v now h2⟩, by decide⟩

/-- Witness for C5 at a concrete cache state. -/
theorem c5_lru_set_witness :
    lookupEntry (cacheSet (initCache 2 3600) "K" "V" 7).entries "K" =
        some { response := "V", timestamp := 7 } ∧
      (cacheSet (initCache 2 3600) "K" "V" 7).entries.getLast? =
        some ("K", { response := "V", timestamp := 7 }) ∧
      (cacheSet (initCache 2 3600) "K" "V" 7).entries.length ≤
        (initCache 2 3600).maxSize :=
  c5_lru_set.1 (initCache 2 3600) "K" "V" 7 (by decide) (by decide)

/-- Claim C6: `Get(key)` is a hit exactly when the entry is present and
strictly fresh (`now - timestamp < ttl`); a hit returns the stored response
and promotes the entry to the most-recently-used end; an expired entry is
removed and the call is a miss; an absent key is a miss and the state is
untouched; there are no other outcomes. -/
theorem c6_cache_get_hit_miss :
    ∀ (c : Cache) (k : String) (now : ℤ),
      (lookupEntry c.entries k = none → cacheGet c k now = (none, c)) ∧
      (∀ e, lookupEntry c.entries k = some e → now - e.timestamp < c.ttl →
        (cacheGet c k now).1 = some e.response ∧
          lookupEntry (cacheGet c k now).2.entries k = some e ∧
          (cacheGet c k now).2.entries.getLast? = some (k, e)) ∧
      (∀ e, lookupEntry c.entries k = some e → ¬ now - e.timestamp < c.ttl →
        (cacheGet c k now).1 = none ∧
          lookupEntry (cacheGet c k now).2.entries k = none) ∧
      (∀ v, (cacheGet c k now).1 = some v ↔
        ∃ e, lookupEntry c.entries k = some e ∧ now - e.timestamp < c.ttl ∧
          v = e.response) := by
  intro c k now
  refine ⟨?_, ?_, ?_, ?_⟩
  · intro h
    simp [cacheGet, h]
  · intro e he ht
    simp only [cacheGet, he]
    rw [if_pos ht]
    refine ⟨rfl, ?_, ?_⟩
    · dsimp only
      rw [lookupEntry_filter_append, if_pos rfl]
    · dsimp only
      exact List.getLast?_concat _
  · intro e he ht
    simp only [cacheGet, he]
    rw [if_neg ht]
    exact ⟨rfl, lookupEntry_filter_self _ _⟩
  · intro v
    constructor
    · intro hv
      cases hl : lookupEntry c.entries k with
      | none => simp [cacheGet, hl] at hv
      | some e =>
          by_cases ht : now - e.timestamp < c.ttl
          · refine ⟨e, rfl, ht, ?_⟩
            simp only [cacheGet, hl] at hv
            rw [if_pos ht] at hv
            exact (Option.some.inj hv).symm
          · simp only [cacheGet, hl] at hv
            rw [if_neg ht] at hv
            cases hv
    · rintro ⟨e, he, ht, rfl⟩
      simp only [cacheGet, he]
      rw [if_pos ht]

/-- Witness for C6: a fresh hit on a concrete cache. -/
theorem c6_cache_get_hit_miss_witness :
    (cacheGet demoHitCache "K" 10).1 = some "R" ∧
      lookupEntry (cacheGet demoHitCache "K" 10).2.entries "K" =
        some { response := "R", timestamp := 0 } ∧
      (cacheGet demoHitCache "K" 10).2.entries.getLast? =
        some ("K", { response := "R", timestamp := 0 }) :=
  (c6_cache_get_hit_miss demoHitCache "K" 10).2.1
    { response := "R", timestamp := 0 } rfl (by decide)

/-- Counterexample to Claim C7 as stated: two tuples that differ in both the
prompt and the model fields serialise to the same `key_data` string, so MD5
(or any digest) maps them to the same cache key. -/
theorem c7_make_key_collision_counterexample :
    keyData "x:y" "z" 5 1 = keyData "x" "y:z" 5 1 ∧
      ¬ ((("x:y" : String), ("z" : String)) = (("x" : String), ("y:z" : String))) := by
  exact ⟨by decide, by decide⟩

/-- Claim C7 (amended): key generation is a deterministic function of the
tuple and performs no normalisation of the prompt (prompts differing in any
character give different `key_data` strings when the other fields agree), but
distinct tuples are not guaranteed distinct keys: the colon-joined
serialisation is ambiguous, so some pairs of differing tuples collide under
every digest function. -/
theorem c7_make_key :
    (∀ (digest : String → String) (p₁ p₂ mo₁ mo₂ : String) (mt₁ mt₂ : ℕ)
        (t₁ t₂ : ℚ), p₁ = p₂ → mo₁ = mo₂ → mt₁ = mt₂ → t₁ = t₂ →
        generateKeyWith digest p₁ mo₁ mt₁ t₁ =
          generateKeyWith digest p₂ mo₂ mt₂ t₂) ∧
      (∀ (p₁ p₂ mo : String) (mt : ℕ) (t : ℚ),
        keyData p₁ mo mt t = keyData p₂ mo mt t ↔ p₁ = p₂) ∧
      (∀ digest : String → String,
        generateKeyWith digest "x:y" "z" 5 1 =
          generateKeyWith digest "x" "y:z" 5 1) := by
  refine ⟨?_, ?_, ?_⟩
  · rintro d p _ mo _ mt _ t _ rfl rfl rfl rfl
    rfl
  · intro p₁ p₂ mo mt t
    constructor
    · intro h
      have hd := congrArg String.data h
      simp only [keyData, String.data_append, List.append_assoc] at hd
      exact String.ext (List.append_cancel_right hd)
    · rintro rfl
      rfl
  · intro d
    exact congrArg d (by decide)

/-- Witness for C7 at concrete tuples. -/
theorem c7_make_key_witness :
    generateKeyWith demoDigest "hello" "m" 80 1 =
        generateKeyWith demoDigest "hello" "m" 80 1 ∧
      (keyData "Hello " "m" 80 1 = keyData "hello" "m" 80 1 ↔
        ("Hello " : String) = "hello") :=
  ⟨c7_make_key.1 demoDigest "hello" "hello" "m" "m" 80 80 1 1 rfl rfl rfl rfl,
    c7_make_key.2.1 "Hello " "hello" "m" 80 1⟩

/-- Claim C9: a cache hit may move an entry but never alters its stored
response or creation timestamp, and `get` never creates entries; hence after
`Set(k, v)` at `t₀`, no sequence of `Get` calls extends the entry's
lifetime: a `Get(k)` at any time `t` with `ttl ≤ t - t₀` is a miss. -/
theorem c9_get_preserves_timestamp :
    (∀ (c : Cache) (k : String) (now : ℤ) (k' : String) (e : CacheEntry),
        lookupEntry (cacheGet c k now).2.entries k' = some e →
        lookupEntry c.entries k' = some e) ∧
      (∀ (c : Cache) (ops : List (String × ℤ)) (k' : String) (e : CacheEntry),
        lookupEntry (applyGets c ops).entries k' = some e →
        lookupEntry c.entries k' = some e) ∧
      (∀ (c : Cache) (k v : String) (t₀ : ℤ) (ops : List (String × ℤ)) (t : ℤ),
        1 ≤ c.maxSize → c.ttl ≤ t - t₀ →
        (cacheGet (applyGets (cacheSet c k v t₀) ops) k t).1 = none) := by
  refine ⟨fun c k now k' e h => cacheGet_lookup_preserve h,
    fun c ops k' e h => applyGets_lookup_preserve h, ?_⟩
  intro c k v t₀ ops t h1 ht
  have hset : lookupEntry (cacheSet c k v t₀).entries k =
      some { response := v, timestamp := t₀ } :=
    cacheSet_lookup_self c k v t₀ h1
  cases hfin : lookupEntry (applyGets (cacheSet c k v t₀) ops).entries k with
  | none => simp [cacheGet, hfin]
  | some e =>
      have hpres := applyGets_lookup_preserve hfin
      rw [hset] at hpres
      have he : e = { response := v, timestamp := t₀ } := (Option.some.inj hpres).symm
      subst he
      have httl : (applyGets (cacheSet c k v t₀) ops).ttl = c.ttl :=
        (applyGets_ttl ops _).trans rfl
      simp only [cacheGet, hfin]
      rw [if_neg (by rw [httl]; omega)]

/-- Witness for C9: a concrete set-then-get sequence whose final lookup at
the TTL boundary misses. -/
theorem c9_get_preserves_timestamp_witness :
    (cacheGet (applyGets (cacheSet (initCache 2 3600) "K" "V" 0)
        [("K", 10), ("K", 20)]) "K" 3600).1 = none :=
  c9_get_preserves_timestamp.2.2 (initCache 2 3600) "K" "V" 0
    [("K", 10), ("K", 20)] 3600 (by decide) (by decide)

/-! ### Helper lemmas about history trimming and the session store -/

theorem pySliceLast_of_length_le {l : List α} {n : ℕ} (h : l.length ≤ n) :
    pySliceLast l n = l := by
  unfold pySliceLast
  split
  · rfl
  · rw [Nat.sub_eq_zero_of_le h, List.drop_zero]

theorem trim_eq (l : List α) (n : ℕ) :
    (if n < l.length then pySliceLast l n else l) = pySliceLast l n := by
  split
  · rfl
  · rename_i h
    exact (pySliceLast_of_length_le (by omega)).symm

theorem pySliceLast_append_of_le {x y : List α} {n : ℕ} (h0 : n ≠ 0)
    (h : n ≤ y.length) : pySliceLast (x ++ y) n = pySliceLast y n := by
  simp only [pySliceLast, if_neg h0]
  rw [List.drop_append_eq_append_drop,
    List.drop_eq_nil_of_le (by simp only [List.length_append]; omega)]
  simp only [List.nil_append]
  congr 1
  simp only [List.length_append]
  omega

theorem pySliceLast_snoc (l : List α) (a : α) (n : ℕ) :
    pySliceLast (pySliceLast l n ++ [a]) n = pySliceLast (l ++ [a]) n := by
  by_cases h0 : n = 0
  · subst h0
    simp [pySliceLast]
  · by_cases hlen : l.length ≤ n
    · rw [pySliceLast_of_length_le hlen]
    · push_neg at hlen
      have hdef : pySliceLast l n = l.drop (l.length - n) := by
        simp [pySliceLast, h0]
      rw [hdef]
      conv_rhs => rw [← List.take_append_drop (l.length - n) l, List.append_assoc]
      have hy : n ≤ (List.drop (l.length - n) l ++ [a]).length := by
        simp only [List.length_append, List.length_drop, List.length_cons,
          List.length_nil]
        omega
      conv_rhs => rw [pySliceLast_append_of_le h0 hy]

theorem cleanup_not_elapsed {m : Memory} {now : ℤ}
    (h : now - m.lastCleanup < m.cleanupInterval) :
    cleanupOldConversations m now = m := by
  unfold cleanupOldConversations
  rw [if_pos h]

theorem cleanup_conversations_elapsed {m : Memory} {now : ℤ}
    (h : ¬ now - m.lastCleanup < m.cleanupInterval) (sid : String) :
    (cleanupOldConversations m now).conversations sid =
      match m.conversations sid with
      | some conv => if conv.lastActivity < now - 24 * 3600 then none else some conv
      | none => none := by
  unfold cleanupOldConversations
  rw [if_neg h]

theorem cleanup_conversations_keep {m : Memory} {now : ℤ} {sid : String}
    {conv : Conversation} (hfind : m.conversations sid = some conv)
    (hact : ¬ conv.lastActivity < now - 24 * 3600) :
    (cleanupOldConversations m now).conversations sid = some conv := by
  unfold cleanupOldConversations
  split
  · exact hfind
  · dsimp only
    rw [hfind]
    dsimp only
    rw [if_neg hact]

theorem cleanup_maxMessages (m : Memory) (now : ℤ) :
    (cleanupOldConversations m now).maxMessagesPerConversation =
      m.maxMessagesPerConversation := by
  unfold cleanupOldConversations
  split <;> rfl

theorem setConv_self (f : String → Option Conversation) (sid : String)
    (c : Conversation) : setConv f sid c sid = some c := by
  simp [setConv]

theorem setConv_ne (f : String → Option Conversation) {s sid : String}
    (c : Conversation) (h : s ≠ sid) : setConv f sid c s = f s := by
  simp [setConv, h]

theorem addMessage_conversations_self (m : Memory) (sid role content : String)
    (md : List (String × String)) (now : ℤ) :
    (addMessage m sid role content md now).conversations sid =
      some { (m.conversations sid).getD (freshConversation now md) with
             lastActivity := now
             messages := pySliceLast
               (((m.conversations sid).getD (freshConversation now md)).messages ++
                 [{ role := role, content := content, timestamp := now }])
               m.maxMessagesPerConversation } := by
  unfold addMessage
  simp only [trim_eq]
  apply cleanup_conversations_keep
  · exact setConv_self _ _ _
  · dsimp only
    omega

theorem addMessage_maxMessages (m : Memory) (sid role content : String)
    (md : List (String × String)) (now : ℤ) :
    (addMessage m sid role content md now).maxMessagesPerConversation =
      m.maxMessagesPerConversation := by
  unfold addMessage
  rw [cleanup_maxMessages]

theorem applyAppends_maxMessages (l : List AppendCall) :
    ∀ (m : Memory) (sid : String),
      (applyAppends m sid l).maxMessagesPerConversation =
        m.maxMessagesPerConversation := by
  induction l with
  | nil => intro m sid; rfl
  | cons a rest ih =>
      intro m sid
      unfold applyAppends at ih ⊢
      simp only [List.foldl_cons]
      rw [ih]
      exact addMessage_maxMessages m sid a.role a.content [] a.now

theorem messagesAt_getD (m : Memory) (sid : String) (now : ℤ)
    (md : List (String × String)) :
    ((m.conversations sid).getD (freshConversation now md)).messages =
      messagesAt m sid := by
  unfold messagesAt
  cases m.conversations sid <;> rfl

theorem applyAppends_messages (sid : String) :
    ∀ (l : List AppendCall) (m : Memory), l ≠ [] →
      ((applyAppends m sid l).conversations sid).map Conversation.messages =
        some (pySliceLast (messagesAt m sid ++ l.map msgOfAppend)
          m.maxMessagesPerConversation) := by
  intro l
  induction l using List.reverseRecOn with
  | nil => intro m h; exact absurd rfl h
  | append_singleton l a ih =>
      intro m _
      have hsplit : applyAppends m sid (l ++ [a]) =
          addMessage (applyAppends m sid l) sid a.role a.content [] a.now := by
        unfold applyAppends
        rw [List.foldl_append]
        rfl
      rcases eq_or_ne l [] with rfl | hne
      · rw [hsplit]
        show ((addMessage m sid a.role a.content [] a.now).conversations sid).map
            Conversation.messages = _
        rw [addMessage_conversations_self]
        simp only [Option.map_some']
        rw [messagesAt_getD]
        simp [msgOfAppend]
      · obtain ⟨conv, hconv, hmsgs⟩ := Option.map_eq_some'.mp (ih m hne)
        rw [hsplit, addMessage_conversations_self]
        simp only [Option.map_some']
        rw [hconv]
        simp only [Option.getD_some]
        rw [applyAppends_maxMessages, hmsgs, pySliceLast_snoc, List.append_assoc,
          List.map_append]
        simp [msgOfAppend]

/-- Demo sequence of three appends used to instantiate Claim C4. -/
def demoAppends : List AppendCall :=
  [⟨"user", "a", 1⟩, ⟨"user", "b", 2⟩, ⟨"user", "c", 3⟩]

/-- Claim C4: after more than `maxMessagesPerSession` appends to a session,
`GetMessages` returns exactly the last `maxMessagesPerSession` appended
messages in their original relative order (oldest trimmed first). -/
theorem c4_history_bound (m : Memory) (sid : String) (l : List AppendCall)
    (now : ℤ) (h0 : 0 < m.maxMessagesPerConversation)
    (hN : m.maxMessagesPerConversation < l.length) :
    (getConversation (applyAppends m sid l) sid now).1 =
      (l.map msgOfAppend).drop (l.length - m.maxMessagesPerConversation) := by
  have hne : l ≠ [] := by rintro rfl; simp at hN
  obtain ⟨conv, hconv, hmsgs⟩ :=
    Option.map_eq_some'.mp (applyAppends_messages sid l m hne)
  unfold getConversation
  rw [hconv]
  dsimp only
  rw [hmsgs, pySliceLast_append_of_le (Nat.pos_iff_ne_zero.mp h0)
    (by simp only [List.length_map]; omega)]
  simp [pySliceLast, Nat.pos_iff_ne_zero.mp h0]

/-- Witness for C4: three appends against a capacity-two history keep the
last two messages. -/
theorem c4_history_bound_witness :
    (getConversation (applyAppends (initMemory 1000 2 0) "s" demoAppends) "s" 10).1 =
      (demoAppends.map msgOfAppend).drop
        (demoAppends.length - (initMemory 1000 2 0).maxMessagesPerConversation) :=
  c4_history_bound (initMemory 1000 2 0) "s" demoAppends 10 (by decide) (by decide)

/-! ### Demo store states used to instantiate the session-store claims -/

/-- A fresh demo session (empty history and order, last active at time 0). -/
def demoConv : Conversation :=
  { messages := [], createdAt := 0, lastActivity := 0, metadata := [],
    orderContext := {} }

/-- A demo store holding exactly the session `"s"` (fresh at time 0),
`last_cleanup = 0`. -/
def demoMemory : Memory :=
  { conversations := fun s => if s = "s" then some demoConv else none
    maxConversations := 1000
    maxMessagesPerConversation := 50
    lastCleanup := 0
    cleanupInterval := 3600 }

/-- A demo order item priced at 10. -/
def demoItem : OrderItem := { name := some "Pizza", price := some 10 }

/-- A demo session whose order holds one item. -/
def demoOrderConv : Conversation :=
  { messages := [], createdAt := 0, lastActivity := 0, metadata := [],
    orderContext := { currentOrder := [demoItem], orderTotal := 10 } }

/-- A demo store holding exactly the session `"s"` with a one-item order. -/
def demoOrderMemory : Memory :=
  { conversations := fun s => if s = "s" then some demoOrderConv else none
    maxConversations := 1000
    maxMessagesPerConversation := 50
    lastCleanup := 0
    cleanupInterval := 3600 }

/-- A demo partial order-context update. -/
def demoUpdate : OrderContextUpdate := { customerName := some (some "Ali") }

/-- A demo sequence of add/add/remove/clear order operations on `"s"`. -/
def demoOrderOps : List OrderOp :=
  [.add "s" demoItem 2, .add "s" { name := some "Cola", price := some 3 } 3,
    .remove "s" 0 4, .clear "s" 5]

theorem demoMemory_invariant : OrderTotalInvariant demoMemory := by
  intro sid conv h
  unfold demoMemory at h
  dsimp only at h
  split at h
  · cases h
    rfl
  · cases h

/-! ### Order-total preservation (Claim C1) -/

theorem addToOrder_invariant {m : Memory} (h : OrderTotalInvariant m)
    (sid : String) (item : OrderItem) (now : ℤ) :
    OrderTotalInvariant (addToOrder m sid item now) := by
  intro s c hc
  unfold addToOrder at hc
  cases hm : m.conversations sid with
  | none => rw [hm] at hc; exact h s c hc
  | some conv =>
      rw [hm] at hc
      dsimp only at hc
      by_cases hs : s = sid
      · subst hs
        rw [setConv_self] at hc
        injection hc with hc2
        subst hc2
        rfl
      · rw [setConv_ne _ _ hs] at hc
        exact h s c hc

theorem removeFromOrder_invariant {m : Memory} (h : OrderTotalInvariant m)
    (sid : String) (i now : ℤ) :
    OrderTotalInvariant (removeFromOrder m sid i now).2 := by
  intro s c hc
  unfold removeFromOrder at hc
  cases hm : m.conversations sid with
  | none => rw [hm] at hc; exact h s c hc
  | some conv =>
      rw [hm] at hc
      dsimp only at hc
      by_cases hif : 0 ≤ i ∧ i < (conv.orderContext.currentOrder.length : ℤ)
      · rw [if_pos hif] at hc
        cases hget : conv.orderContext.currentOrder.get? i.toNat with
        | none => rw [hget] at hc; exact h s c hc
        | some it =>
            rw [hget] at hc
            dsimp only at hc
            by_cases hs : s = sid
            · subst hs
              rw [setConv_self] at hc
              injection hc with hc2
              subst hc2
              rfl
            · rw [setConv_ne _ _ hs] at hc
              exact h s c hc
      · rw [if_neg hif] at hc
        exact h s c hc

theorem clearOrder_invariant {m : Memory} (h : OrderTotalInvariant m)
    (sid : String) (now : ℤ) :
    OrderTotalInvariant (clearOrder m sid now) := by
  intro s c hc
  unfold clearOrder at hc
  cases hm : m.conversations sid with
  | none => rw [hm] at hc; exact h s c hc
  | some conv =>
      rw [hm] at hc
      dsimp only at hc
      by_cases hs : s = sid
      · subst hs
        rw [setConv_self] at hc
        injection hc with hc2
        subst hc2
        rfl
      · rw [setConv_ne _ _ hs] at hc
        exact h s c hc

theorem applyOrderOp_invariant {m : Memory} (h : OrderTotalInvariant m)
    (op : OrderOp) : OrderTotalInvariant (applyOrderOp m op) := by
  cases op with
  | add sid item now => exact addToOrder_invariant h sid item now
  | remove sid i now => exact removeFromOrder_invariant h sid i now
  | clear sid now => exact clearOrder_invariant h sid now

theorem applyOrderOps_invariant {ops : List OrderOp} :
    ∀ {m : Memory}, OrderTotalInvariant m →
      OrderTotalInvariant (applyOrderOps m ops) := by
  induction ops with
  | nil => intro m h; exact h
  | cons op rest ih =>
      intro m h
      exact ih (applyOrderOp_invariant h op)

/-! ### Claims C1, C2, C3, C8, C10 (ConversationMemory) -/

/-- Counterexample to the universally-quantified part of Claim C1:
`UpdateOrderContext` sets `orderTotal` directly via the shallow dict merge,
leaving a state where the total (42) differs from the sum of the prices of
the (empty) current order (0). -/
theorem c1_order_total_settable_counterexample :
    ((updateOrderContext demoMemory "s" { orderTotal := some 42 } 5).conversations
        "s").map (fun c => c.orderContext.orderTotal) = some 42 ∧
      ((updateOrderContext demoMemory "s" { orderTotal := some 42 } 5).conversations
        "s").map (fun c => sumPrices c.orderContext.currentOrder) = some 0 ∧
      (42 : ℚ) ≠ 0 :=
  ⟨by decide, by decide, by decide⟩

/-- Claim C1 (amended): after every call in any sequence of `AddOrderItem`,
`RemoveOrderItem` and `ClearOrder` operations, every session's `orderTotal`
equals the sum of `price` over its `currentOrder` (price summed raw); the
total is, however, independently settable through `UpdateOrderContext`. -/
theorem c1_order_total_invariant :
    (∀ (m : Memory) (op : OrderOp), OrderTotalInvariant m →
        OrderTotalInvariant (applyOrderOp m op)) ∧
      (∀ (m : Memory) (ops : List OrderOp), OrderTotalInvariant m →
        OrderTotalInvariant (applyOrderOps m ops)) :=
  ⟨fun _ op h => applyOrderOp_invariant h op,
    fun _ _ h => applyOrderOps_invariant h⟩

/-- Witness for C1: the invariant holds after a concrete add/add/remove/clear
sequence on a concrete store. -/
theorem c1_order_total_invariant_witness :
    OrderTotalInvariant (applyOrderOps demoMemory demoOrderOps) :=
  c1_order_total_invariant.2 demoMemory demoOrderOps demoMemory_invariant

/-- Counterexample to Claim C2: on a store without session `"s"`, both
`AddOrderItem` and `UpdateOrderContext` leave the session absent (they are
silent no-ops), whereas `AppendMessage` does create it. -/
theorem c2_implicit_creation_counterexample :
    (addToOrder (initMemory 1000 50 0) "s" demoItem 5).conversations "s" = none ∧
      (updateOrderContext (initMemory 1000 50 0) "s" demoUpdate 5).conversations
          "s" = none ∧
      (addMessage (initMemory 1000 50 0) "s" "user" "hi" [] 5).conversations
          "s" ≠ none :=
  ⟨by decide, by decide, by decide⟩

/-- Claim C2 (amended): calling `UpdateOrderContext` or `AddOrderItem` on a
session ID absent from the store is a silent no-op that leaves the store
unchanged; only `AppendMessage` creates sessions implicitly. -/
theorem c2_absent_session_write_noop (m : Memory) (sid : String)
    (u : OrderContextUpdate) (item : OrderItem) (now : ℤ)
    (h : m.conversations sid = none) :
    updateOrderContext m sid u now = m ∧ addToOrder m sid item now = m := by
  unfold updateOrderContext addToOrder
  rw [h]
  exact ⟨rfl, rfl⟩

/-- Witness for C2 on a concrete empty store. -/
theorem c2_absent_session_write_noop_witness :
    updateOrderContext (initMemory 1000 50 0) "x" demoUpdate 3 =
        initMemory 1000 50 0 ∧
      addToOrder (initMemory 1000 50 0) "x" demoItem 3 = initMemory 1000 50 0 :=
  c2_absent_session_write_noop (initMemory 1000 50 0) "x" demoUpdate demoItem 3 rfl

/-- Counterexample to the error-typing part of Claim C3: removal at index 0
from an existing session with an empty order and removal from a nonexistent
session produce the same result value `None`; the two failures are not
distinguishable. -/
theorem c3_remove_errors_indistinguishable :
    (removeFromOrder demoMemory "s" 0 7).1 = none ∧
      (removeFromOrder (initMemory 1000 50 0) "s" 0 7).1 = none ∧
      (removeFromOrder demoMemory "s" 0 7).1 =
        (removeFromOrder (initMemory 1000 50 0) "s" 0 7).1 :=
  ⟨by decide, by decide, by decide⟩

/-- Claim C3 (amended): `RemoveOrderItem(sid, i)` with `0 ≤ i < len` removes
and returns the item at `i` and recomputes `orderTotal`; with an index out of
range, or a nonexistent session, it returns `None` (one undifferentiated
failure value for both cases) and leaves the store completely unchanged. -/
theorem c3_remove_order_item :
    (∀ (m : Memory) (sid : String) (i now : ℤ) (conv : Conversation),
        m.conversations sid = some conv → 0 ≤ i →
        i < (conv.orderContext.currentOrder.length : ℤ) →
        (removeFromOrder m sid i now).1 =
            conv.orderContext.currentOrder.get? i.toNat ∧
          ((removeFromOrder m sid i now).2.conversations sid).map
              (fun c => c.orderContext.currentOrder) =
            some (conv.orderContext.currentOrder.take i.toNat ++
              conv.orderContext.currentOrder.drop (i.toNat + 1)) ∧
          ((removeFromOrder m sid i now).2.conversations sid).map
              (fun c => c.orderContext.orderTotal) =
            some (sumPrices (conv.orderContext.currentOrder.take i.toNat ++
              conv.orderContext.currentOrder.drop (i.toNat + 1)))) ∧
      (∀ (m : Memory) (sid : String) (i now : ℤ) (conv : Conversation),
        m.conversations sid = some conv →
        ¬ (0 ≤ i ∧ i < (conv.orderContext.currentOrder.length : ℤ)) →
        removeFromOrder m sid i now = (none, m)) ∧
      (∀ (m : Memory) (sid : String) (i now : ℤ),
        m.conversations sid = none → removeFromOrder m sid i now = (none, m)) := by
  refine ⟨?_, ?_, ?_⟩
  · intro m sid i now conv hfind h0 h1
    unfold removeFromOrder
    rw [hfind]
    dsimp only
    rw [if_pos ⟨h0, h1⟩]
    cases hget : conv.orderContext.currentOrder.get? i.toNat with
    | none =>
        exact absurd (List.get?_eq_none.mp hget) (by omega)
    | some it =>
        dsimp only
        refine ⟨rfl, ?_, ?_⟩ <;>
          · dsimp only
            rw [setConv_self]
            rfl
  · intro m sid i now conv hfind hneg
    unfold removeFromOrder
    rw [hfind]
    dsimp only
    rw [if_neg hneg]
  · intro m sid i now h
    unfold removeFromOrder
    rw [h]

/-- Witness for C3: removing index 0 from a concrete one-item order. -/
theorem c3_remove_order_item_witness :
    (removeFromOrder demoOrderMemory "s" 0 9).1 =
        demoOrderConv.orderContext.currentOrder.get? (0 : ℤ).toNat ∧
      ((removeFromOrder demoOrderMemory "s" 0 9).2.conversations "s").map
          (fun c => c.orderContext.currentOrder) =
        some (demoOrderConv.orderContext.currentOrder.take (0 : ℤ).toNat ++
          demoOrderConv.orderContext.currentOrder.drop ((0 : ℤ).toNat + 1)) ∧
      ((removeFromOrder demoOrderMemory "s" 0 9).2.conversations "s").map
          (fun c => c.orderContext.orderTotal) =
        some (sumPrices (demoOrderConv.orderContext.currentOrder.take
            (0 : ℤ).toNat ++
          demoOrderConv.orderContext.currentOrder.drop ((0 : ℤ).toNat + 1))) :=
  c3_remove_order_item.1 demoOrderMemory "s" 0 9 demoOrderConv (by decide)
    (by decide) (by decide)

/-- Claim C8: a sweep is a complete no-op unless the minimum interval has
elapsed since the previous sweep that ran; when it runs it deletes exactly
the sessions whose `lastActivity` is strictly older than the 24-hour cutoff;
concretely, a session last active at 0 survives a sweep at 3600 and is
removed by a sweep at 90000. -/
theorem c8_sweep :
    (∀ (m : Memory) (now : ℤ), now - m.lastCleanup < m.cleanupInterval →
        cleanupOldConversations m now = m) ∧
      (∀ (m : Memory) (now : ℤ) (sid : String) (conv : Conversation),
        m.cleanupInterval ≤ now - m.lastCleanup →
        ((cleanupOldConversations m now).conversations sid = some conv ↔
          m.conversations sid = some conv ∧
            ¬ conv.lastActivity < now - 24 * 3600)) ∧
      ((cleanupOldConversations demoMemory 3600).conversations "s" =
          some demoConv ∧
        (cleanupOldConversations (cleanupOldConversations demoMemory 3600)
            90000).conversations "s" = none) := by
  refine ⟨fun m now h => cleanup_not_elapsed h, ?_, by decide, by decide⟩
  intro m now sid conv h
  rw [cleanup_conversations_elapsed (by omega) sid]
  cases hm : m.conversations sid with
  | none =>
      constructor
      · intro hx; exact Option.noConfusion hx
      · rintro ⟨hc, _⟩; exact Option.noConfusion hc
  | some c =>
      dsimp only
      by_cases hact : c.lastActivity < now - 24 * 3600
      · rw [if_pos hact]
        constructor
        · intro hx; exact Option.noConfusion hx
        · rintro ⟨hc, hna⟩
          obtain rfl : c = conv := Option.some.inj hc
          exact absurd hact hna
      · rw [if_neg hact]
        constructor
        · intro hx
          obtain rfl : c = conv := Option.some.inj hx
          exact ⟨rfl, hact⟩
        · rintro ⟨hc, _⟩
          exact hc

/-- Witness for C8 at concrete states and times. -/
theorem c8_sweep_witness :
    cleanupOldConversations demoMemory 100 = demoMemory ∧
      ((cleanupOldConversations demoMemory 3600).conversations "s" =
          some demoConv ↔
        demoMemory.conversations "s" = some demoConv ∧
          ¬ demoConv.lastActivity < 3600 - 24 * 3600) :=
  ⟨c8_sweep.1 demoMemory 100 (by decide),
    c8_sweep.2.1 demoMemory 3600 "s" demoConv (by decide)⟩

/-- Claim C10: `GetOrderContext` and `GetSummary` leave the whole store (in
particular the session's `lastActivity`) unchanged, while `GetMessages` on an
existing session returns its history and sets only that session's
`lastActivity` to the current time. -/
theorem c10_read_frame :
    ∀ (m : Memory) (sid : String) (now : ℤ) (conv : Conversation),
      (getOrderContext m sid).2 = m ∧
        (getSessionSummary m sid).2 = m ∧
        (m.conversations sid = some conv →
          (getConversation m sid now).1 = conv.messages ∧
            (getConversation m sid now).2 =
              { m with conversations := (setConv m.conversations sid
                  { conv with lastActivity := now }) }) := by
  intro m sid now conv
  refine ⟨?_, ?_, ?_⟩
  · unfold getOrderContext
    cases m.conversations sid <;> rfl
  · unfold getSessionSummary
    cases m.conversations sid <;> rfl
  · intro h
    unfold getConversation
    rw [h]
    exact ⟨rfl, rfl⟩

/-- Witness for C10 on a concrete store. -/
theorem c10_read_frame_witness :
    (getOrderContext demoMemory "s").2 = demoMemory ∧
      (getSessionSummary demoMemory "s").2 = demoMemory ∧
      ((getConversation demoMemory "s" 9).1 = demoConv.messages ∧
        (getConversation demoMemory "s" 9).2 =
          { demoMemory with conversations := (setConv demoMemory.conversations "s"
              { demoConv with lastActivity := 9 }) }) :=
  ⟨(c10_read_frame demoMemory "s" 9 demoConv).1,
    (c10_read_frame demoMemory "s" 9 demoConv).2.1,
    (c10_read_frame demoMemory "s" 9 demoConv).2.2 (by decide)⟩

end MyLLM
